import Mathlib

/-!
Verification of the task-list state machine of `src/src/main.rs`
(a single-window egui to-do application).

The embedding models:
* the `Task` record (lines 7-19) and the application state `MyApp` (lines 21-30),
  restricted to the fields the task-list state machine reads or writes
  (the autosave `Instant` and the rendering context are external);
* `add_task` (lines 76-94), the D-key / delete-button handler (lines 208-212
  and 400-411), the U-key undo handler (lines 214-220), the J/K keyboard
  navigation (lines 183-206), the committed-priority-edit re-sort (lines
  361-363) and the drag resolution block (lines 366-395);
* the persisted JSON document written by `persist_tasks` (lines 68-74) and
  read by `load_tasks` (lines 57-66), as a JSON value; the actual file
  system and the `serde_json` string layer are external collaborators, so a
  JSON syntax tree stands for the file contents.

Machine integers: `priority` is a Rust `u8` and the color channels are `u8`;
both are modelled as `Nat` (no arithmetic in the program can overflow a `u8`:
the only operations performed on them are comparisons, `min`, `max` and
`clamp`).  Rust's stable `sort_by` with comparator `b.priority.cmp(&a.priority)`
is modelled by a stable insertion sort with respect to descending priority.
-/

namespace TaskWidget

/-- Rust `[u8; 4]` RGBA color (line 11). -/
structure Rgba where
  red : Nat
  green : Nat
  blue : Nat
  alpha : Nat
deriving DecidableEq, Repr

/-- Rust struct `Task` (lines 7-19).  `editing` and `editing_priority` carry
`#[serde(skip)]` in the source: they are never serialized and default to
`false` on load. -/
structure Task where
  text : String
  priority : Nat
  color : Rgba
  selected : Bool
  editing : Bool
  editing_priority : Bool
deriving DecidableEq, Repr

instance : Inhabited Task where
  default := ⟨"", 0, ⟨0, 0, 0, 0⟩, false, false, false⟩

/-- Rust struct `MyApp` (lines 21-30), restricted to the task-list state:
`last_save : Instant` and the egui context are external to the state machine. -/
structure MyApp where
  tasks : List Task
  new_task_text : String
  new_task_priority : Nat
  new_task_color : Rgba
  last_deleted_tasks : List Task
  dragging_task : Option Nat
  drag_over_task : Option Nat
deriving DecidableEq, Repr

/-- Comparator of the three `sort_by(|a, b| b.priority.cmp(&a.priority))`
calls (lines 91, 217, 362): `a` may stay before `b` iff `b.priority ≤ a.priority`. -/
def taskGe (a b : Task) : Prop := b.priority ≤ a.priority

instance : DecidableRel taskGe := fun a b =>
  inferInstanceAs (Decidable (b.priority ≤ a.priority))

instance : IsTotal Task taskGe := ⟨fun a b => Nat.le_total b.priority a.priority⟩

instance : IsTrans Task taskGe := ⟨fun _ _ _ h1 h2 => Nat.le_trans h2 h1⟩

/-- Rust `Vec::sort_by` with the descending-priority comparator: a stable
sort, modelled by insertion sort (stable by construction, like `sort_by`). -/
def sortTasks (l : List Task) : List Task := l.insertionSort taskGe

/-- Element access `tasks[k]`; total, with a default that is only ever hit
out of bounds (every use in the model sits behind the same bounds guard the
Rust code checks before indexing). -/
def taskAt (l : List Task) (k : Nat) : Task := l.getD k default

/-- Priority of the task at index `k` (`tasks[k].priority`). -/
def priorityAt (l : List Task) (k : Nat) : Nat := (taskAt l k).priority

/-- Rust field assignment `tasks[k].selected = b` (lines 189-190, 193, 200-201, 204). -/
def set_selected (l : List Task) (k : Nat) (b : Bool) : List Task :=
  l.set k { taskAt l k with selected := b }

/-- Rust field assignment `tasks[k].priority = p` (line 389). -/
def set_priority_at (l : List Task) (k : Nat) (p : Nat) : List Task :=
  l.set k { taskAt l k with priority := p }

/-- Whitespace-trimming of a character list: drop leading and trailing
whitespace, keep the middle intact. -/
def trimChars (cs : List Char) : List Char :=
  ((cs.dropWhile Char.isWhitespace).reverse.dropWhile Char.isWhitespace).reverse

/-- Rust `str::trim` (lines 77 and 82), modelled on the underlying character
list (`Char.isWhitespace` covers the whitespace the program encounters;
Lean's own `String.trim` is not kernel-reducible, so the model spells the
same computation out). -/
def rust_trim (s : String) : String := String.mk (trimChars s.data)

/-- Task pushed by `add_task` (lines 81-88): trimmed text, current draft
priority and color, `selected = false`, `editing = false`. -/
def new_task (s : MyApp) : Task :=
  { text := rust_trim s.new_task_text
    priority := s.new_task_priority
    color := s.new_task_color
    selected := false
    editing := false
    editing_priority := false }

/-- Rust `MyApp::add_task` (lines 76-94): reject a draft whose trimmed text
is empty; otherwise push the new task, stable-sort by priority descending,
and clear the draft text. -/
def add_task (s : MyApp) : MyApp :=
  if (rust_trim s.new_task_text).isEmpty then s
  else
    { s with
      tasks := sortTasks (s.tasks ++ [new_task s])
      new_task_text := "" }

/-- Body shared by the D-key handler (lines 208-212) and the delete button
(lines 400-411): the buffer becomes the selected tasks in list order
(overwriting it), and `retain(|t| !t.selected)` keeps the unselected ones. -/
def delete_selected (s : MyApp) : MyApp :=
  { s with
    last_deleted_tasks := s.tasks.filter (fun t => t.selected)
    tasks := s.tasks.filter (fun t => !t.selected) }

/-- Enabling condition of the delete button (line 400):
`tasks.iter().any(|t| t.selected)`. -/
def delete_button_enabled (l : List Task) : Bool := l.any (fun t => t.selected)

/-- Rust U-key handler (lines 214-220): when the buffer is non-empty, append
it onto the list, stable-sort by priority descending, and clear it. -/
def undo_delete (s : MyApp) : MyApp :=
  if s.last_deleted_tasks.isEmpty then s
  else
    { s with
      tasks := sortTasks (s.tasks ++ s.last_deleted_tasks)
      last_deleted_tasks := [] }

/-- Rust J-key handler (lines 186-195): `selected_idx` is
`tasks.iter().position(|t| t.selected)`. -/
def key_j (s : MyApp) : MyApp :=
  match s.tasks.findIdx? (fun t => t.selected) with
  | some i =>
    if i + 1 < s.tasks.length then
      { s with tasks := set_selected (set_selected s.tasks i false) (i + 1) true }
    else s
  | none =>
    if s.tasks.isEmpty then s
    else { s with tasks := set_selected s.tasks 0 true }

/-- Rust K-key handler (lines 197-206), symmetric to the J key. -/
def key_k (s : MyApp) : MyApp :=
  match s.tasks.findIdx? (fun t => t.selected) with
  | some i =>
    if 0 < i then
      { s with tasks := set_selected (set_selected s.tasks i false) (i - 1) true }
    else s
  | none =>
    if s.tasks.isEmpty then s
    else { s with tasks := set_selected s.tasks 0 true }

/-- Re-sort performed when a priority edit was committed this frame
(lines 361-363); the list already holds the edited priority values. -/
def commit_priority_edit (l : List Task) : List Task := sortTasks l

/-- Splice of lines 368-369: `let task = tasks.remove(from); tasks.insert(to, task)`. -/
def drag_spliced (l : List Task) (i j : Nat) : List Task :=
  (l.eraseIdx i).insertIdx j (taskAt l i)

/-- Rebalanced priority of the moved task (lines 373-387), computed on the
spliced list: at index 0 the (new) second task's priority `.max(1).min(10)`;
at the last index the second-to-last task's priority `.min(10).max(1)`; in
the interior the moved task's own priority clamped between its two
neighbors.  `len` is the length read after the splice (line 371). -/
def drag_new_priority (l : List Task) (i j : Nat) : Nat :=
  let spliced := drag_spliced l i j
  let len := spliced.length
  if j = 0 then
    if 1 < len then min (max (priorityAt spliced 1) 1) 10
    else priorityAt spliced j
  else if j = len - 1 then
    max (min (priorityAt spliced (len - 2)) 10) 1
  else
    let prev_p := priorityAt spliced (j - 1)
    let next_p := priorityAt spliced (j + 1)
    min (max (priorityAt spliced j) (min prev_p next_p)) (max prev_p next_p)

/-- Drag resolution block after the render loop (lines 366-395): when a drag
source and a drop target were both recorded, and they differ and are both in
range, splice the moved task from index `i` to index `j` and rebalance its
priority against its new neighbors; both records are cleared whenever both
were present. -/
def resolve_drag (s : MyApp) : MyApp :=
  match s.dragging_task, s.drag_over_task with
  | some i, some j =>
    if i ≠ j ∧ i < s.tasks.length ∧ j < s.tasks.length then
      { s with
        tasks := set_priority_at (drag_spliced s.tasks i j) j
          (drag_new_priority s.tasks i j)
        dragging_task := none
        drag_over_task := none }
    else { s with dragging_task := none, drag_over_task := none }
  | _, _ => s

/-- JSON value, standing for the contents of the persisted file
(`serde_json` and the file system are external). -/
inductive Json where
  | jnull : Json
  | jbool : Bool → Json
  | jnum : Nat → Json
  | jstr : String → Json
  | jarr : List Json → Json
  | jobj : List (String × Json) → Json

/-- Lookup of an object field by key. -/
def jget (fields : List (String × Json)) (key : String) : Option Json :=
  (fields.find? (fun p => p.1 == key)).map (fun p => p.2)

/-- Serialized form of one task (lines 7-12): the four persisted fields;
the two `#[serde(skip)]` flags are absent from the document. -/
def encode_task (t : Task) : Json :=
  Json.jobj
    [("text", Json.jstr t.text),
     ("priority", Json.jnum t.priority),
     ("color", Json.jarr [Json.jnum t.color.red, Json.jnum t.color.green,
                          Json.jnum t.color.blue, Json.jnum t.color.alpha]),
     ("selected", Json.jbool t.selected)]

/-- Rust `MyApp::persist_tasks` (lines 68-74): serialize the whole ordered
task list as a JSON array. -/
def persist_tasks (tasks : List Task) : Json := Json.jarr (tasks.map encode_task)

/-- Deserialization of one task object: the persisted fields are read back
verbatim (no validation of the priority range) and the `#[serde(skip)]`
fields take their `Default` value `false`. -/
def decode_task (j : Json) : Option Task :=
  match j with
  | Json.jobj fs =>
    match jget fs "text", jget fs "priority", jget fs "color", jget fs "selected" with
    | some (Json.jstr s), some (Json.jnum p),
      some (Json.jarr [Json.jnum r, Json.jnum g, Json.jnum b, Json.jnum a]),
      some (Json.jbool sel) =>
        some ⟨s, p, ⟨r, g, b, a⟩, sel, false, false⟩
    | _, _, _, _ => none
  | _ => none

/-- Deserialization of a list of task objects; any malformed element fails
the whole parse, as `serde_json::from_str` does. -/
def decode_task_list : List Json → Option (List Task)
  | [] => some []
  | j :: js =>
    match decode_task j, decode_task_list js with
    | some t, some ts => some (t :: ts)
    | _, _ => none

/-- Deserialization of the whole document: it must be a JSON array. -/
def decode_tasks (j : Json) : Option (List Task) :=
  match j with
  | Json.jarr js => decode_task_list js
  | _ => none

/-- Rust `MyApp::load_tasks` (lines 57-66): a successful parse returns the
tasks; a missing file, unreadable file or failed parse silently degrades to
the empty list. -/
def load_tasks (j : Json) : List Task :=
  match decode_tasks j with
  | some ts => ts
  | none => []

/-- Count of selected tasks, the measure used to state the navigation
claims (`selected` is a per-task flag, lines 12 and 342-344). -/
def selected_count (l : List Task) : Nat := (l.filter (fun t => t.selected)).length

/-- Subsequence of a list holding the tasks of one given priority; used to
state stability of the sort (ties keep their relative order). -/
def filterP (p : Nat) (l : List Task) : List Task :=
  l.filter (fun t => t.priority == p)

theorem sortTasks_sorted (l : List Task) : List.Sorted taskGe (sortTasks l) :=
  List.sorted_insertionSort taskGe l

theorem sortTasks_perm (l : List Task) : (sortTasks l).Perm l :=
  List.perm_insertionSort taskGe l

theorem filterP_orderedInsert_eq (p : Nat) (x : Task) (l : List Task)
    (hx : x.priority = p) :
    filterP p (List.orderedInsert taskGe x l) = x :: filterP p l := by
  induction l with
  | nil => simp [filterP, List.orderedInsert, hx]
  | cons b l ih =>
    by_cases hb : taskGe x b
    · simp [filterP, List.orderedInsert, hb, List.filter_cons, hx]
    · have hbp : (b.priority == p) = false := by
        simp only [taskGe, not_le] at hb
        simp only [beq_eq_false_iff_ne, ne_eq]
        omega
      simp only [List.orderedInsert, if_neg hb]
      simp only [filterP, List.filter_cons, hbp] at ih ⊢
      exact ih

theorem filterP_orderedInsert_ne (p : Nat) (x : Task) (l : List Task)
    (hx : x.priority ≠ p) :
    filterP p (List.orderedInsert taskGe x l) = filterP p l := by
  have hxp : (x.priority == p) = false := by simpa using hx
  induction l with
  | nil => simp [filterP, List.orderedInsert, hxp]
  | cons b l ih =>
    by_cases hb : taskGe x b
    · simp [filterP, List.orderedInsert, hb, hxp]
    · simp only [List.orderedInsert, if_neg hb]
      simp only [filterP, List.filter_cons] at ih ⊢
      cases hbq : (b.priority == p) <;> simp [hbq, ih]

theorem filterP_sortTasks (p : Nat) (l : List Task) :
    filterP p (sortTasks l) = filterP p l := by
  induction l with
  | nil => rfl
  | cons b l ih =>
    simp only [sortTasks, List.insertionSort] at ih ⊢
    by_cases hb : b.priority = p
    · rw [filterP_orderedInsert_eq p b _ hb, ih]
      simp [filterP, List.filter_cons, hb]
    · rw [filterP_orderedInsert_ne p b _ hb, ih]
      have : (b.priority == p) = false := by simpa using hb
      simp [filterP, List.filter_cons, this]

theorem taskAt_eq_getElem (l : List Task) (k : Nat) (h : k < l.length) :
    taskAt l k = l[k] := by
  simp [taskAt, List.getD_eq_getElem?_getD, List.getElem?_eq_getElem h]

theorem length_set_selected (l : List Task) (k : Nat) (b : Bool) :
    (set_selected l k b).length = l.length := by
  simp [set_selected]

theorem taskAt_set_selected_self (l : List Task) (k : Nat) (b : Bool)
    (h : k < l.length) :
    taskAt (set_selected l k b) k = { taskAt l k with selected := b } := by
  simp [set_selected, taskAt, List.getD_eq_getElem?_getD, List.getElem?_set_self h]

theorem taskAt_set_selected_ne (l : List Task) (k m : Nat) (b : Bool)
    (h : m ≠ k) :
    taskAt (set_selected l m b) k = taskAt l k := by
  simp [set_selected, taskAt, List.getD_eq_getElem?_getD, List.getElem?_set_ne h]

theorem length_set_priority_at (l : List Task) (k p : Nat) :
    (set_priority_at l k p).length = l.length := by
  simp [set_priority_at]

theorem taskAt_set_priority_at_self (l : List Task) (k p : Nat)
    (h : k < l.length) :
    taskAt (set_priority_at l k p) k = { taskAt l k with priority := p } := by
  simp [set_priority_at, taskAt, List.getD_eq_getElem?_getD, List.getElem?_set_self h]

theorem taskAt_set_priority_at_ne (l : List Task) (k m p : Nat)
    (h : m ≠ k) :
    taskAt (set_priority_at l m p) k = taskAt l k := by
  simp [set_priority_at, taskAt, List.getD_eq_getElem?_getD, List.getElem?_set_ne h]

theorem taskAt_cons_zero (t : Task) (ts : List Task) : taskAt (t :: ts) 0 = t := by
  simp [taskAt]

theorem taskAt_cons_succ (t : Task) (ts : List Task) (k : Nat) :
    taskAt (t :: ts) (k + 1) = taskAt ts k := by
  simp [taskAt]

theorem set_selected_cons_zero (t : Task) (ts : List Task) (b : Bool) :
    set_selected (t :: ts) 0 b = { t with selected := b } :: ts := by
  simp [set_selected, taskAt]

theorem set_selected_cons_succ (t : Task) (ts : List Task) (k : Nat) (b : Bool) :
    set_selected (t :: ts) (k + 1) b = t :: set_selected ts k b := by
  simp [set_selected, taskAt]

theorem selected_count_cons (t : Task) (ts : List Task) :
    selected_count (t :: ts) =
      (if t.selected = true then 1 else 0) + selected_count ts := by
  simp only [selected_count, List.filter_cons]
  cases h : t.selected
  · simp [h]
  · simp [h]
    omega

theorem one_le_selected_count (l : List Task) (k : Nat) (hk : k < l.length)
    (hsel : (taskAt l k).selected = true) : 1 ≤ selected_count l := by
  induction l generalizing k with
  | nil => simp at hk
  | cons t ts ih =>
    cases k with
    | zero =>
      rw [taskAt_cons_zero] at hsel
      simp [selected_count_cons, hsel]
    | succ m =>
      rw [taskAt_cons_succ] at hsel
      have := ih m (by simpa using Nat.lt_of_succ_lt_succ hk) hsel
      rw [selected_count_cons]
      omega

theorem two_le_selected_count (l : List Task) (i k : Nat) (hik : i < k)
    (hk : k < l.length) (hi : (taskAt l i).selected = true)
    (hks : (taskAt l k).selected = true) : 2 ≤ selected_count l := by
  induction l generalizing i k with
  | nil => simp at hk
  | cons t ts ih =>
    cases i with
    | zero =>
      rw [taskAt_cons_zero] at hi
      obtain ⟨m, rfl⟩ : ∃ m, k = m + 1 := ⟨k - 1, by omega⟩
      rw [taskAt_cons_succ] at hks
      have h1 := one_le_selected_count ts m (by simpa using Nat.lt_of_succ_lt_succ hk) hks
      rw [selected_count_cons, hi]
      simp only [if_pos]
      omega
    | succ i' =>
      obtain ⟨m, rfl⟩ : ∃ m, k = m + 1 := ⟨k - 1, by omega⟩
      rw [taskAt_cons_succ] at hi hks
      have := ih i' m (by omega) (by simpa using Nat.lt_of_succ_lt_succ hk) hi hks
      rw [selected_count_cons]
      omega

theorem selected_unique (l : List Task) (h : selected_count l ≤ 1) (i k : Nat)
    (hik : i ≠ k) (hi : i < l.length) (hk : k < l.length)
    (hisel : (taskAt l i).selected = true) : (taskAt l k).selected = false := by
  by_contra hcon
  have hksel : (taskAt l k).selected = true := by
    cases hval : (taskAt l k).selected
    · exact absurd hval hcon
    · rfl
  rcases Nat.lt_or_ge i k with hlt | hge
  · exact absurd h (by have := two_le_selected_count l i k hlt hk hisel hksel; omega)
  · have hlt : k < i := by omega
    exact absurd h (by have := two_le_selected_count l k i hlt hi hksel hisel; omega)

theorem selected_count_eq_zero_of_none (l : List Task)
    (h : l.findIdx? (fun t => t.selected) = none) : selected_count l = 0 := by
  rw [List.findIdx?_eq_none_iff] at h
  have : l.filter (fun t => t.selected) = [] := by
    rw [List.filter_eq_nil_iff]
    intro a ha
    simp [h a ha]
  simp [selected_count, this]

theorem selected_count_set_true (l : List Task) (k : Nat) (hk : k < l.length)
    (h : (taskAt l k).selected = false) :
    selected_count (set_selected l k true) = selected_count l + 1 := by
  induction l generalizing k with
  | nil => simp at hk
  | cons t ts ih =>
    cases k with
    | zero =>
      rw [taskAt_cons_zero] at h
      rw [set_selected_cons_zero, selected_count_cons, selected_count_cons, h]
      simp
      omega
    | succ m =>
      rw [taskAt_cons_succ] at h
      rw [set_selected_cons_succ, selected_count_cons, selected_count_cons,
        ih m (by simpa using Nat.lt_of_succ_lt_succ hk) h]
      omega

theorem selected_count_set_false (l : List Task) (k : Nat) (hk : k < l.length)
    (h : (taskAt l k).selected = true) :
    selected_count l = selected_count (set_selected l k false) + 1 := by
  induction l generalizing k with
  | nil => simp at hk
  | cons t ts ih =>
    cases k with
    | zero =>
      rw [taskAt_cons_zero] at h
      rw [set_selected_cons_zero, selected_count_cons, selected_count_cons, h]
      simp
      omega
    | succ m =>
      rw [taskAt_cons_succ] at h
      rw [set_selected_cons_succ, selected_count_cons, selected_count_cons,
        ih m (by simpa using Nat.lt_of_succ_lt_succ hk) h]
      omega

theorem findIdx?_cons_zero {α : Type} (p : α → Bool) (x : α) (xs : List α) :
    (x :: xs).findIdx? p =
      if p x then some 0 else (xs.findIdx? p).map (fun n => n + 1) := by
  rw [List.findIdx?_cons, List.findIdx?_succ]

theorem findIdx?_some_spec (l : List Task) (i : Nat)
    (h : l.findIdx? (fun t => t.selected) = some i) :
    i < l.length ∧ (taskAt l i).selected = true ∧
      ∀ k, k < i → (taskAt l k).selected = false := by
  induction l generalizing i with
  | nil => simp [List.findIdx?_nil] at h
  | cons t ts ih =>
    rw [findIdx?_cons_zero] at h
    by_cases ht : t.selected
    · rw [if_pos (by simpa using ht)] at h
      obtain rfl : i = 0 := by simpa using h.symm
      refine ⟨by simp, by simpa [taskAt_cons_zero] using ht, fun k hk => by omega⟩
    · rw [if_neg (by simpa using ht)] at h
      rcases Option.map_eq_some'.mp h with ⟨i', hi', rfl⟩
      obtain ⟨hb, hs, hf⟩ := ih i' hi'
      refine ⟨by simpa using Nat.succ_lt_succ hb, by simpa [taskAt_cons_succ] using hs, ?_⟩
      intro k hk
      cases k with
      | zero => simpa [taskAt_cons_zero] using ht
      | succ m => rw [taskAt_cons_succ]; exact hf m (by omega)

theorem findIdx?_sel_first (l : List Task) (j : Nat) (hj : j < l.length)
    (hsel : (taskAt l j).selected = true)
    (hfirst : ∀ k, k < j → (taskAt l k).selected = false) :
    l.findIdx? (fun t => t.selected) = some j := by
  induction l generalizing j with
  | nil => simp at hj
  | cons t ts ih =>
    rw [findIdx?_cons_zero]
    cases j with
    | zero =>
      rw [taskAt_cons_zero] at hsel
      rw [if_pos hsel]
    | succ m =>
      have ht : t.selected = false := by
        have := hfirst 0 (by omega)
        rwa [taskAt_cons_zero] at this
      rw [if_neg (by simp [ht])]
      rw [taskAt_cons_succ] at hsel
      rw [ih m (by simpa using Nat.lt_of_succ_lt_succ hj) hsel
        (fun k hk => by have := hfirst (k + 1) (by omega); rwa [taskAt_cons_succ] at this)]
      rfl

theorem eraseIdx_set (l : List Task) (k : Nat) (a : Task) :
    (l.set k a).eraseIdx k = l.eraseIdx k := by
  induction l generalizing k with
  | nil => simp
  | cons t ts ih =>
    cases k with
    | zero => simp [List.set, List.eraseIdx]
    | succ m => simp [List.set, List.eraseIdx, ih]

/-- C4: the add operation is a no-op (list and draft unchanged) when the
trimmed draft text is empty; otherwise it appends a task with the trimmed
text, `selected = false`, `editing = false`, re-sorts by priority descending
(stably), and clears the draft text. -/
theorem add_task_spec (s : MyApp) :
    ((rust_trim s.new_task_text).isEmpty = true → add_task s = s) ∧
    ((rust_trim s.new_task_text).isEmpty = false →
      (add_task s).tasks = sortTasks (s.tasks ++ [new_task s]) ∧
      (new_task s).text = rust_trim s.new_task_text ∧
      (new_task s).selected = false ∧
      (new_task s).editing = false ∧
      (add_task s).new_task_text = "" ∧
      (add_task s).tasks.length = s.tasks.length + 1 ∧
      List.Sorted taskGe (add_task s).tasks ∧
      (∀ p, filterP p (add_task s).tasks = filterP p (s.tasks ++ [new_task s]))) := by
  constructor
  · intro h
    simp [add_task, h]
  · intro h
    have htasks : (add_task s).tasks = sortTasks (s.tasks ++ [new_task s]) := by
      simp [add_task, h]
    refine ⟨htasks, rfl, rfl, rfl, by simp [add_task, h], ?_, ?_, ?_⟩
    · rw [htasks, (sortTasks_perm _).length_eq]
      simp
    · rw [htasks]
      exact sortTasks_sorted _
    · intro p
      rw [htasks]
      exact filterP_sortTasks p _

/-- C4 witness: a concrete blank draft is rejected and a concrete non-blank
draft appends one task. -/
theorem add_task_spec_witness :
    add_task ⟨[], "   ", 4, ⟨0, 0, 0, 0⟩, [], none, none⟩
        = ⟨[], "   ", 4, ⟨0, 0, 0, 0⟩, [], none, none⟩ ∧
    (add_task ⟨[], "  hi ", 4, ⟨0, 0, 0, 0⟩, [], none, none⟩).tasks.length = 0 + 1 :=
  ⟨(add_task_spec _).1 (by decide),
   ((add_task_spec ⟨[], "  hi ", 4, ⟨0, 0, 0, 0⟩, [], none, none⟩).2 (by decide)).2.2.2.2.2.1⟩

/-- C1: immediately after a (successful) add, after an undo that restored a
non-empty buffer, and after a committed priority edit, the task list is
sorted by priority descending (`taskGe`), and the sort is stable: for every
priority value, the tasks holding it keep the relative order they had just
before the sort. -/
theorem sorted_after_add_undo_commit (s : MyApp) :
    ((rust_trim s.new_task_text).isEmpty = false →
      List.Sorted taskGe (add_task s).tasks ∧
      (∀ p, filterP p (add_task s).tasks = filterP p (s.tasks ++ [new_task s]))) ∧
    (s.last_deleted_tasks ≠ [] →
      List.Sorted taskGe (undo_delete s).tasks ∧
      (∀ p, filterP p (undo_delete s).tasks
          = filterP p (s.tasks ++ s.last_deleted_tasks))) ∧
    (List.Sorted taskGe (commit_priority_edit s.tasks) ∧
      (∀ p, filterP p (commit_priority_edit s.tasks) = filterP p s.tasks)) := by
  refine ⟨fun h => ?_, fun h => ?_, ?_, ?_⟩
  · have htasks : (add_task s).tasks = sortTasks (s.tasks ++ [new_task s]) := by
      simp [add_task, h]
    exact ⟨htasks ▸ sortTasks_sorted _, fun p => htasks ▸ filterP_sortTasks p _⟩
  · have hne : s.last_deleted_tasks.isEmpty = false := by simpa using h
    have htasks : (undo_delete s).tasks = sortTasks (s.tasks ++ s.last_deleted_tasks) := by
      simp [undo_delete, hne]
    exact ⟨htasks ▸ sortTasks_sorted _, fun p => htasks ▸ filterP_sortTasks p _⟩
  · exact sortTasks_sorted _
  · exact fun p => filterP_sortTasks p _

/-- C1 witness: a concrete state with a non-blank draft and a non-empty
deleted buffer; the add path yields a sorted list. -/
theorem sorted_after_add_undo_commit_witness :
    List.Sorted taskGe
      (add_task ⟨[⟨"a", 2, ⟨0, 0, 0, 0⟩, false, false, false⟩], "n", 9, ⟨0, 0, 0, 0⟩,
        [⟨"d", 5, ⟨0, 0, 0, 0⟩, false, false, false⟩], none, none⟩).tasks :=
  ((sorted_after_add_undo_commit _).1 (by decide)).1

/-- C2: the delete operation keeps exactly the unselected tasks, in order
(a sublist of the prior list), moves exactly the selected tasks, in order,
into the last-deleted buffer, ignores and overwrites whatever the buffer
held before, and nothing is lost or duplicated (the buffer and the new list
together are a permutation of the old list); a second delete leaves a buffer
holding only the most recent batch (with no intervening re-selection, the
empty one). -/
theorem delete_moves_selected_to_buffer (s : MyApp) :
    ((delete_selected s).tasks.Sublist s.tasks) ∧
    ((delete_selected s).last_deleted_tasks.Sublist s.tasks) ∧
    (∀ t, t ∈ (delete_selected s).tasks → t.selected = false) ∧
    (∀ t, t ∈ (delete_selected s).last_deleted_tasks → t.selected = true) ∧
    (((delete_selected s).last_deleted_tasks ++ (delete_selected s).tasks).Perm s.tasks) ∧
    (∀ buf, (delete_selected { s with last_deleted_tasks := buf }).last_deleted_tasks
        = (delete_selected s).last_deleted_tasks) ∧
    ((delete_selected (delete_selected s)).last_deleted_tasks = []) := by
  refine ⟨?_, ?_, ?_, ?_, ?_, fun buf => rfl, ?_⟩
  · exact List.filter_sublist s.tasks
  · exact List.filter_sublist s.tasks
  · intro t ht
    simp only [delete_selected, List.mem_filter] at ht
    simpa using ht.2
  · intro t ht
    simp only [delete_selected, List.mem_filter] at ht
    exact ht.2
  · exact List.filter_append_perm _ s.tasks
  · show (s.tasks.filter (fun t => !t.selected)).filter (fun t => t.selected) = []
    rw [List.filter_eq_nil_iff]
    intro a ha
    have := (List.mem_filter.mp ha).2
    simp at this
    simp [this]

/-- C2 witness: selecting indices 0 and 2 of a three-task list deletes
exactly those two tasks into the buffer. -/
theorem delete_moves_selected_to_buffer_witness :
    ∀ t, t ∈ (delete_selected ⟨[⟨"A", 5, ⟨0, 0, 0, 0⟩, true, false, false⟩,
        ⟨"B", 4, ⟨0, 0, 0, 0⟩, false, false, false⟩,
        ⟨"C", 3, ⟨0, 0, 0, 0⟩, true, false, false⟩], "", 1, ⟨0, 0, 0, 0⟩, [],
        none, none⟩).last_deleted_tasks → t.selected = true :=
  (delete_moves_selected_to_buffer _).2.2.2.1

/-- C3: undo is a no-op when the buffer is empty; when the buffer is
non-empty it appends the buffer back onto the list, re-sorts by priority
descending, and clears the buffer, so the result is a sorted permutation of
list-plus-buffer and every buffered task is back in the list; and a delete
of a non-empty selection followed by one undo restores a permutation of the
original list. -/
theorem undo_restores_deleted (s : MyApp) :
    (s.last_deleted_tasks = [] → undo_delete s = s) ∧
    (s.last_deleted_tasks ≠ [] →
      (undo_delete s).tasks = sortTasks (s.tasks ++ s.last_deleted_tasks) ∧
      (undo_delete s).last_deleted_tasks = [] ∧
      List.Sorted taskGe (undo_delete s).tasks ∧
      (undo_delete s).tasks.Perm (s.tasks ++ s.last_deleted_tasks) ∧
      (∀ t, t ∈ s.last_deleted_tasks → t ∈ (undo_delete s).tasks)) ∧
    ((∃ t, t ∈ s.tasks ∧ t.selected = true) →
      (delete_selected s).last_deleted_tasks ≠ [] ∧
      (undo_delete (delete_selected s)).tasks.Perm s.tasks) := by
  refine ⟨fun h => ?_, fun h => ?_, fun h => ?_⟩
  · simp [undo_delete, h]
  · have hne : s.last_deleted_tasks.isEmpty = false := by simpa using h
    have htasks : (undo_delete s).tasks = sortTasks (s.tasks ++ s.last_deleted_tasks) := by
      simp [undo_delete, hne]
    refine ⟨htasks, by simp [undo_delete, hne], htasks ▸ sortTasks_sorted _,
      htasks ▸ sortTasks_perm _, ?_⟩
    intro t ht
    have : t ∈ s.tasks ++ s.last_deleted_tasks := List.mem_append_right _ ht
    exact (htasks ▸ (sortTasks_perm _).mem_iff).mpr this
  · obtain ⟨t, ht, hsel⟩ := h
    have hbuf : t ∈ (delete_selected s).last_deleted_tasks := by
      simp [delete_selected, List.mem_filter, ht, hsel]
    have hne : (delete_selected s).last_deleted_tasks ≠ [] :=
      List.ne_nil_of_mem hbuf
    have hne' : (delete_selected s).last_deleted_tasks.isEmpty = false := by
      simpa using hne
    refine ⟨hne, ?_⟩
    have htasks : (undo_delete (delete_selected s)).tasks
        = sortTasks ((delete_selected s).tasks ++ (delete_selected s).last_deleted_tasks) := by
      simp [undo_delete, hne']
    rw [htasks]
    refine (sortTasks_perm _).trans ?_
    refine List.perm_append_comm.trans ?_
    exact List.filter_append_perm _ s.tasks

/-- C3 witness: deleting the selected task of a two-task list and undoing
restores a permutation of the original list. -/
theorem undo_restores_deleted_witness :
    (undo_delete (delete_selected ⟨[⟨"A", 5, ⟨0, 0, 0, 0⟩, true, false, false⟩,
        ⟨"B", 4, ⟨0, 0, 0, 0⟩, false, false, false⟩], "", 1, ⟨0, 0, 0, 0⟩, [],
        none, none⟩)).tasks.Perm
      [⟨"A", 5, ⟨0, 0, 0, 0⟩, true, false, false⟩,
       ⟨"B", 4, ⟨0, 0, 0, 0⟩, false, false, false⟩] :=
  ((undo_restores_deleted _).2.2
    ⟨⟨"A", 5, ⟨0, 0, 0, 0⟩, true, false, false⟩, by simp, rfl⟩).2

/-- C9: with no task selected, the D-key delete still runs: the list is
unchanged, but the last-deleted buffer is overwritten with the empty batch,
so a subsequent undo is a no-op (any previously buffered batch is gone) —
while the delete button is disabled in exactly this situation. -/
theorem delete_key_empty_selection (s : MyApp)
    (h : ∀ t, t ∈ s.tasks → t.selected = false) :
    (delete_selected s).tasks = s.tasks ∧
    (delete_selected s).last_deleted_tasks = [] ∧
    undo_delete (delete_selected s) = delete_selected s ∧
    delete_button_enabled s.tasks = false := by
  have h1 : s.tasks.filter (fun t => t.selected) = [] := by
    rw [List.filter_eq_nil_iff]
    intro a ha
    simp [h a ha]
  have h2 : s.tasks.filter (fun t => !t.selected) = s.tasks := by
    rw [List.filter_eq_self]
    intro a ha
    simp [h a ha]
  refine ⟨?_, ?_, ?_, ?_⟩
  · simp [delete_selected, h2]
  · simp [delete_selected, h1]
  · have hbuf : (delete_selected s).last_deleted_tasks = [] := by
      simp [delete_selected, h1]
    simp [undo_delete, hbuf]
  · simp only [delete_button_enabled, List.any_eq_false]
    intro t ht
    simp [h t ht]

/-- C9 witness: a state with no selection but a non-empty previous buffer:
delete empties the buffer, making the old batch unrecoverable. -/
theorem delete_key_empty_selection_witness :
    (delete_selected ⟨[⟨"A", 5, ⟨0, 0, 0, 0⟩, false, false, false⟩], "", 1,
        ⟨0, 0, 0, 0⟩, [⟨"old", 7, ⟨0, 0, 0, 0⟩, false, false, false⟩],
        none, none⟩).last_deleted_tasks = [] :=
  (delete_key_empty_selection _ (by decide)).2.1

theorem decode_encode_task (t : Task) :
    decode_task (encode_task t)
      = some { t with editing := false, editing_priority := false } := rfl

theorem decode_task_list_map (l : List Task) :
    decode_task_list (l.map encode_task)
      = some (l.map (fun t => { t with editing := false, editing_priority := false })) := by
  induction l with
  | nil => rfl
  | cons t ts ih => simp [decode_task_list, decode_encode_task, ih]

theorem load_persist_eq (l : List Task) :
    load_tasks (persist_tasks l)
      = l.map (fun t => { t with editing := false, editing_priority := false }) := by
  simp [load_tasks, persist_tasks, decode_tasks, decode_task_list_map]

/-- C7: serializing a task list and deserializing it reproduces the same
ordered list on every persisted field (text, priority, color, selected),
with the transient `editing` and `editing_priority` flags reset to `false`
on every loaded task. -/
theorem persist_load_round_trip (l : List Task) :
    load_tasks (persist_tasks l)
      = l.map (fun t => { t with editing := false, editing_priority := false }) ∧
    (load_tasks (persist_tasks l)).map Task.text = l.map Task.text ∧
    (load_tasks (persist_tasks l)).map Task.priority = l.map Task.priority ∧
    (load_tasks (persist_tasks l)).map Task.color = l.map Task.color ∧
    (load_tasks (persist_tasks l)).map Task.selected = l.map Task.selected ∧
    (∀ t, t ∈ load_tasks (persist_tasks l) →
      t.editing = false ∧ t.editing_priority = false) := by
  have hmain := load_persist_eq l
  refine ⟨hmain, ?_, ?_, ?_, ?_, ?_⟩
  · rw [hmain, List.map_map]; rfl
  · rw [hmain, List.map_map]; rfl
  · rw [hmain, List.map_map]; rfl
  · rw [hmain, List.map_map]; rfl
  · intro t ht
    rw [hmain] at ht
    obtain ⟨u, _, rfl⟩ := List.mem_map.mp ht
    exact ⟨rfl, rfl⟩

/-- C7 witness: a concrete two-task list (with transient flags set) round
trips with the flags cleared. -/
theorem persist_load_round_trip_witness :
    load_tasks (persist_tasks
        [⟨"A", 5, ⟨1, 2, 3, 4⟩, true, true, true⟩,
         ⟨"B", 4, ⟨9, 9, 9, 9⟩, false, false, false⟩])
      = [⟨"A", 5, ⟨1, 2, 3, 4⟩, true, false, false⟩,
         ⟨"B", 4, ⟨9, 9, 9, 9⟩, false, false, false⟩] :=
  (persist_load_round_trip _).1

/-- C10: deserialization takes priorities verbatim: any byte value,
including values outside `[1, 10]` such as `0` or `255`, is kept unchanged
(no clamping, no rejection, no empty-list fallback). -/
theorem load_priority_verbatim (l : List Task)
    (_h : ∀ t, t ∈ l → t.priority < 256) :
    (load_tasks (persist_tasks l)).map Task.priority = l.map Task.priority ∧
    (load_tasks (persist_tasks l)).length = l.length ∧
    decode_tasks (persist_tasks l) ≠ none := by
  have hmain := load_persist_eq l
  refine ⟨?_, ?_, ?_⟩
  · rw [hmain, List.map_map]; rfl
  · rw [hmain, List.length_map]
  · simp [persist_tasks, decode_tasks, decode_task_list_map]

/-- C10 witness: out-of-range byte priorities 0 and 255 survive a round
trip verbatim. -/
theorem load_priority_verbatim_witness :
    (load_tasks (persist_tasks
        [⟨"zero", 0, ⟨0, 0, 0, 0⟩, false, false, false⟩,
         ⟨"big", 255, ⟨1, 2, 3, 4⟩, true, false, false⟩])).map Task.priority
      = [0, 255] :=
  (load_priority_verbatim _ (by decide)).1

theorem length_drag_spliced (l : List Task) (i j : Nat) (hi : i < l.length)
    (hj : j < l.length) : (drag_spliced l i j).length = l.length := by
  have he : (l.eraseIdx i).length = l.length - 1 := List.length_eraseIdx_of_lt hi
  have hj' : j ≤ (l.eraseIdx i).length := by omega
  rw [drag_spliced, List.length_insertIdx j _ hj', he]
  omega

theorem taskAt_insertIdx_self (m : List Task) (j : Nat) (x : Task)
    (hj : j ≤ m.length) : taskAt (m.insertIdx j x) j = x := by
  have hlen : (m.insertIdx j x).length = m.length + 1 := List.length_insertIdx j m hj
  rw [taskAt_eq_getElem _ _ (by omega)]
  exact List.getElem_insertIdx_self m x j hj

theorem taskAt_drag_spliced_self (l : List Task) (i j : Nat) (hi : i < l.length)
    (hj : j < l.length) : taskAt (drag_spliced l i j) j = taskAt l i := by
  have he : (l.eraseIdx i).length = l.length - 1 := List.length_eraseIdx_of_lt hi
  exact taskAt_insertIdx_self _ _ _ (by omega)

theorem resolve_drag_valid (s : MyApp) (i j : Nat) (hi : s.dragging_task = some i)
    (hj : s.drag_over_task = some j)
    (hcond : i ≠ j ∧ i < s.tasks.length ∧ j < s.tasks.length) :
    resolve_drag s =
      { s with
        tasks := set_priority_at (drag_spliced s.tasks i j) j
          (drag_new_priority s.tasks i j)
        dragging_task := none
        drag_over_task := none } := by
  simp only [resolve_drag, hi, hj]
  rw [if_pos hcond]

theorem resolve_drag_invalid (s : MyApp) (i j : Nat) (hi : s.dragging_task = some i)
    (hj : s.drag_over_task = some j)
    (hcond : ¬(i ≠ j ∧ i < s.tasks.length ∧ j < s.tasks.length)) :
    resolve_drag s = { s with dragging_task := none, drag_over_task := none } := by
  simp only [resolve_drag, hi, hj]
  rw [if_neg hcond]

/-- C5: after a completed drag of the task at index `i` to a valid target
index `j`, the moved task's priority at an interior target lies between its
two new neighbors' priorities; at target index 0 or at the last index it
equals the single adjacent neighbor's priority clamped to `[1, 10]`; and on
a one-task list the resolution leaves the list (hence the priority)
unchanged. -/
theorem drag_rebalance_bounds (s : MyApp) (i j : Nat)
    (hi : s.dragging_task = some i) (hj : s.drag_over_task = some j) :
    (s.tasks.length = 1 → (resolve_drag s).tasks = s.tasks) ∧
    (i ≠ j → i < s.tasks.length → j < s.tasks.length →
      (resolve_drag s).tasks.length = s.tasks.length ∧
      (j = 0 → priorityAt (resolve_drag s).tasks 0
          = min (max (priorityAt (resolve_drag s).tasks 1) 1) 10) ∧
      (j = s.tasks.length - 1 → priorityAt (resolve_drag s).tasks j
          = min (max (priorityAt (resolve_drag s).tasks (j - 1)) 1) 10) ∧
      (0 < j → j + 1 < s.tasks.length →
        min (priorityAt (resolve_drag s).tasks (j - 1))
            (priorityAt (resolve_drag s).tasks (j + 1))
          ≤ priorityAt (resolve_drag s).tasks j ∧
        priorityAt (resolve_drag s).tasks j
          ≤ max (priorityAt (resolve_drag s).tasks (j - 1))
              (priorityAt (resolve_drag s).tasks (j + 1)))) := by
  constructor
  · intro hlen
    have hcond : ¬(i ≠ j ∧ i < s.tasks.length ∧ j < s.tasks.length) := by
      rintro ⟨hne, hi', hj'⟩
      omega
    rw [resolve_drag_invalid s i j hi hj hcond]
  · intro hne hi' hj'
    have hlen2 : 2 ≤ s.tasks.length := by omega
    have hres : (resolve_drag s).tasks
        = set_priority_at (drag_spliced s.tasks i j) j (drag_new_priority s.tasks i j) := by
      rw [resolve_drag_valid s i j hi hj ⟨hne, hi', hj'⟩]
    have hsp : (drag_spliced s.tasks i j).length = s.tasks.length :=
      length_drag_spliced s.tasks i j hi' hj'
    have hreslen : (resolve_drag s).tasks.length = s.tasks.length := by
      rw [hres, length_set_priority_at, hsp]
    have hat_j : priorityAt (resolve_drag s).tasks j = drag_new_priority s.tasks i j := by
      rw [hres]
      simp only [priorityAt]
      rw [taskAt_set_priority_at_self _ _ _ (by omega)]
    have hat_ne : ∀ k, k ≠ j → priorityAt (resolve_drag s).tasks k
        = priorityAt (drag_spliced s.tasks i j) k := by
      intro k hk
      rw [hres]
      simp only [priorityAt]
      rw [taskAt_set_priority_at_ne _ _ _ _ (fun h => hk h.symm)]
    refine ⟨hreslen, ?_, ?_, ?_⟩
    · rintro rfl
      have h1 : priorityAt (resolve_drag s).tasks 1
          = priorityAt (drag_spliced s.tasks i 0) 1 := hat_ne 1 (by omega)
      rw [hat_j, h1]
      simp only [drag_new_priority]
      split_ifs <;> omega
    · intro hjlast
      have hj0 : j ≠ 0 := by omega
      have hjm : j - 1 ≠ j := by omega
      rw [hat_j, hat_ne (j - 1) hjm]
      simp only [drag_new_priority]
      have hidx : (drag_spliced s.tasks i j).length - 2 = j - 1 := by omega
      rw [hidx]
      split_ifs <;> omega
    · intro hj0 hjint
      have hm : j - 1 ≠ j := by omega
      have hp : j + 1 ≠ j := by omega
      rw [hat_j, hat_ne (j - 1) hm, hat_ne (j + 1) hp]
      simp only [drag_new_priority]
      split_ifs <;> constructor <;> omega

/-- C5 witness: dropping the lowest-priority task of `[5, 3, 1]` at the
interior index 1 gives it a priority between its new neighbors. -/
theorem drag_rebalance_bounds_witness :
    min (priorityAt (resolve_drag ⟨[⟨"p", 5, ⟨0, 0, 0, 0⟩, false, false, false⟩,
          ⟨"q", 3, ⟨0, 0, 0, 0⟩, false, false, false⟩,
          ⟨"r", 1, ⟨0, 0, 0, 0⟩, false, false, false⟩], "", 1, ⟨0, 0, 0, 0⟩, [],
          some 2, some 1⟩).tasks 0)
        (priorityAt (resolve_drag ⟨[⟨"p", 5, ⟨0, 0, 0, 0⟩, false, false, false⟩,
          ⟨"q", 3, ⟨0, 0, 0, 0⟩, false, false, false⟩,
          ⟨"r", 1, ⟨0, 0, 0, 0⟩, false, false, false⟩], "", 1, ⟨0, 0, 0, 0⟩, [],
          some 2, some 1⟩).tasks 2)
      ≤ priorityAt (resolve_drag ⟨[⟨"p", 5, ⟨0, 0, 0, 0⟩, false, false, false⟩,
          ⟨"q", 3, ⟨0, 0, 0, 0⟩, false, false, false⟩,
          ⟨"r", 1, ⟨0, 0, 0, 0⟩, false, false, false⟩], "", 1, ⟨0, 0, 0, 0⟩, [],
          some 2, some 1⟩).tasks 1 :=
  (((drag_rebalance_bounds _ 2 1 rfl rfl).2 (by decide) (by decide)
    (by decide)).2.2.2 (by decide) (by decide)).1

/-- C6 counterexample: the resolution of a recorded drag is NOT always the
bare splice of the task list (remove at `i`, reinsert at `j`): moving the
priority-1 task of `[5, 3, 1]` to index 1 also rewrites its priority to 3,
so the resulting list differs from the splice. -/
theorem drag_splice_counterexample :
    (resolve_drag ⟨[⟨"p", 5, ⟨0, 0, 0, 0⟩, false, false, false⟩,
        ⟨"q", 3, ⟨0, 0, 0, 0⟩, false, false, false⟩,
        ⟨"r", 1, ⟨0, 0, 0, 0⟩, false, false, false⟩], "", 1, ⟨0, 0, 0, 0⟩, [],
        some 2, some 1⟩).tasks
      ≠ (([⟨"p", 5, ⟨0, 0, 0, 0⟩, false, false, false⟩,
          ⟨"q", 3, ⟨0, 0, 0, 0⟩, false, false, false⟩,
          ⟨"r", 1, ⟨0, 0, 0, 0⟩, false, false, false⟩] : List Task).eraseIdx 2).insertIdx 1
        ⟨"r", 1, ⟨0, 0, 0, 0⟩, false, false, false⟩ := by
  decide

/-- C6 (amended): with a recorded drag source `i` and drop target `j`, if
`i = j` or either index is out of range the list is untouched, and in all
cases both records are cleared; when `i ≠ j` and both are valid, the result
is the splice (remove at `i`, reinsert at `j`) with the moved task's
priority rewritten to the rebalanced value — every other task is preserved
exactly and in splice order (no global sort), and the moved task keeps its
identity apart from that one priority field. -/
theorem drag_splice_amended (s : MyApp) (i j : Nat)
    (hi : s.dragging_task = some i) (hj : s.drag_over_task = some j) :
    ((i = j ∨ s.tasks.length ≤ i ∨ s.tasks.length ≤ j) →
      (resolve_drag s).tasks = s.tasks) ∧
    (resolve_drag s).dragging_task = none ∧
    (resolve_drag s).drag_over_task = none ∧
    (i ≠ j → i < s.tasks.length → j < s.tasks.length →
      (resolve_drag s).tasks
          = set_priority_at (drag_spliced s.tasks i j) j (drag_new_priority s.tasks i j) ∧
      (resolve_drag s).tasks.eraseIdx j = s.tasks.eraseIdx i ∧
      (resolve_drag s).tasks.length = s.tasks.length ∧
      taskAt (resolve_drag s).tasks j
          = { taskAt s.tasks i with priority := drag_new_priority s.tasks i j }) := by
  have hclear : (resolve_drag s).dragging_task = none ∧
      (resolve_drag s).drag_over_task = none := by
    by_cases hcond : i ≠ j ∧ i < s.tasks.length ∧ j < s.tasks.length
    · rw [resolve_drag_valid s i j hi hj hcond]
      exact ⟨rfl, rfl⟩
    · rw [resolve_drag_invalid s i j hi hj hcond]
      exact ⟨rfl, rfl⟩
  refine ⟨?_, hclear.1, hclear.2, ?_⟩
  · intro hbad
    have hcond : ¬(i ≠ j ∧ i < s.tasks.length ∧ j < s.tasks.length) := by
      rintro ⟨hne, hi', hj'⟩
      rcases hbad with h | h | h <;> omega
    rw [resolve_drag_invalid s i j hi hj hcond]
  · intro hne hi' hj'
    have hres : (resolve_drag s).tasks
        = set_priority_at (drag_spliced s.tasks i j) j (drag_new_priority s.tasks i j) := by
      rw [resolve_drag_valid s i j hi hj ⟨hne, hi', hj'⟩]
    have he : (s.tasks.eraseIdx i).length = s.tasks.length - 1 :=
      List.length_eraseIdx_of_lt hi'
    have hsp : (drag_spliced s.tasks i j).length = s.tasks.length :=
      length_drag_spliced s.tasks i j hi' hj'
    refine ⟨hres, ?_, ?_, ?_⟩
    · rw [hres, set_priority_at, eraseIdx_set, drag_spliced, List.eraseIdx_insertIdx]
    · rw [hres, length_set_priority_at, hsp]
    · rw [hres, taskAt_set_priority_at_self _ _ _ (by omega),
        taskAt_drag_spliced_self s.tasks i j hi' hj']

/-- C6 witness (amended claim): the concrete drag of the counterexample
keeps every other task exactly: erasing the moved slot gives back the
original list without the moved task. -/
theorem drag_splice_amended_witness :
    (resolve_drag ⟨[⟨"p", 5, ⟨0, 0, 0, 0⟩, false, false, false⟩,
        ⟨"q", 3, ⟨0, 0, 0, 0⟩, false, false, false⟩,
        ⟨"r", 1, ⟨0, 0, 0, 0⟩, false, false, false⟩], "", 1, ⟨0, 0, 0, 0⟩, [],
        some 2, some 1⟩).tasks.eraseIdx 1
      = ([⟨"p", 5, ⟨0, 0, 0, 0⟩, false, false, false⟩,
          ⟨"q", 3, ⟨0, 0, 0, 0⟩, false, false, false⟩,
          ⟨"r", 1, ⟨0, 0, 0, 0⟩, false, false, false⟩] : List Task).eraseIdx 2 :=
  ((drag_splice_amended _ 2 1 rfl rfl).2.2.2 (by decide) (by decide) (by decide)).2.1

theorem key_j_some (s : MyApp) (i : Nat)
    (h : s.tasks.findIdx? (fun t => t.selected) = some i) :
    key_j s = if i + 1 < s.tasks.length then
        { s with tasks := set_selected (set_selected s.tasks i false) (i + 1) true }
      else s := by
  simp only [key_j, h]

theorem key_j_none (s : MyApp)
    (h : s.tasks.findIdx? (fun t => t.selected) = none) :
    key_j s = if s.tasks.isEmpty then s
      else { s with tasks := set_selected s.tasks 0 true } := by
  simp only [key_j, h]

theorem key_k_some (s : MyApp) (i : Nat)
    (h : s.tasks.findIdx? (fun t => t.selected) = some i) :
    key_k s = if 0 < i then
        { s with tasks := set_selected (set_selected s.tasks i false) (i - 1) true }
      else s := by
  simp only [key_k, h]

theorem key_k_none (s : MyApp)
    (h : s.tasks.findIdx? (fun t => t.selected) = none) :
    key_k s = if s.tasks.isEmpty then s
      else { s with tasks := set_selected s.tasks 0 true } := by
  simp only [key_k, h]

theorem move_sel_spec (l : List Task) (i m : Nat) (hcount : selected_count l ≤ 1)
    (hfi : l.findIdx? (fun t => t.selected) = some i)
    (hm : m < l.length) (hne : m ≠ i) :
    (set_selected (set_selected l i false) m true).findIdx?
        (fun t => t.selected) = some m ∧
    selected_count (set_selected (set_selected l i false) m true) ≤ 1 ∧
    (set_selected (set_selected l i false) m true).length = l.length ∧
    (taskAt (set_selected (set_selected l i false) m true) i).selected = false := by
  obtain ⟨hi_lt, hi_sel, _⟩ := findIdx?_some_spec l i hfi
  have hlen1 : (set_selected l i false).length = l.length := length_set_selected l i false
  have hlen2 : (set_selected (set_selected l i false) m true).length = l.length := by
    rw [length_set_selected, hlen1]
  have hat_m_mid : taskAt (set_selected l i false) m = taskAt l m :=
    taskAt_set_selected_ne l m i false (Ne.symm hne)
  have hat_m : taskAt (set_selected (set_selected l i false) m true) m
      = { taskAt l m with selected := true } := by
    rw [taskAt_set_selected_self _ _ _ (by omega), hat_m_mid]
  have hat_i : taskAt (set_selected (set_selected l i false) m true) i
      = { taskAt l i with selected := false } := by
    rw [taskAt_set_selected_ne _ _ _ _ hne, taskAt_set_selected_self _ _ _ hi_lt]
  have hat_other : ∀ k, k ≠ m → k ≠ i → k < l.length →
      (taskAt (set_selected (set_selected l i false) m true) k).selected = false := by
    intro k hkm hki hk
    rw [taskAt_set_selected_ne _ _ _ _ (fun hc => hkm hc.symm),
      taskAt_set_selected_ne _ _ _ _ (fun hc => hki hc.symm)]
    exact selected_unique l hcount i k (fun hc => hki hc.symm) hi_lt hk hi_sel
  have hmid_m : (taskAt (set_selected l i false) m).selected = false := by
    rw [hat_m_mid]
    exact selected_unique l hcount i m (Ne.symm hne) hi_lt hm hi_sel
  have hc1 := selected_count_set_false l i hi_lt hi_sel
  have hc2 := selected_count_set_true (set_selected l i false) m (by omega) hmid_m
  refine ⟨?_, by omega, hlen2, by rw [hat_i]⟩
  refine findIdx?_sel_first _ m (by omega) (by rw [hat_m]) ?_
  intro k hk
  by_cases hki : k = i
  · subst hki
    rw [hat_i]
  · exact hat_other k (by omega) hki (by omega)

theorem select_first_spec (l : List Task) (hne : l ≠ [])
    (hfi : l.findIdx? (fun t => t.selected) = none) :
    (set_selected l 0 true).findIdx? (fun t => t.selected) = some 0 ∧
    selected_count (set_selected l 0 true) ≤ 1 ∧
    (set_selected l 0 true).length = l.length := by
  obtain ⟨t, ts, rfl⟩ : ∃ t ts, l = t :: ts := by
    cases l with
    | nil => exact absurd rfl hne
    | cons t ts => exact ⟨t, ts, rfl⟩
  rw [List.findIdx?_eq_none_iff] at hfi
  have hts : selected_count ts = 0 := by
    have : ts.filter (fun t => t.selected) = [] := by
      rw [List.filter_eq_nil_iff]
      intro a ha
      simp [hfi a (List.mem_cons_of_mem t ha)]
    simp [selected_count, this]
  rw [set_selected_cons_zero]
  refine ⟨?_, ?_, by simp⟩
  · rw [findIdx?_cons_zero, if_pos rfl]
  · rw [selected_count_cons]
    simp [hts]

/-- C8: starting from a list with at most one selected task, the J
(move-down) and K (move-up) keys keep at most one task selected and
preserve the list length; with the first selected task at index `i`, J
moves the selection to `i + 1` (no-op when `i` is last) and K moves it to
`i - 1` (no-op when `i = 0`); with no selection, either key selects index 0
(no-op on an empty list). -/
theorem navigation_single_selection (s : MyApp) (h : selected_count s.tasks ≤ 1) :
    selected_count (key_j s).tasks ≤ 1 ∧
    selected_count (key_k s).tasks ≤ 1 ∧
    (key_j s).tasks.length = s.tasks.length ∧
    (key_k s).tasks.length = s.tasks.length ∧
    (∀ i, s.tasks.findIdx? (fun t => t.selected) = some i →
      (i + 1 < s.tasks.length →
        (key_j s).tasks.findIdx? (fun t => t.selected) = some (i + 1) ∧
        (taskAt (key_j s).tasks i).selected = false) ∧
      (i + 1 = s.tasks.length → key_j s = s) ∧
      (0 < i →
        (key_k s).tasks.findIdx? (fun t => t.selected) = some (i - 1) ∧
        (taskAt (key_k s).tasks i).selected = false) ∧
      (i = 0 → key_k s = s)) ∧
    (s.tasks.findIdx? (fun t => t.selected) = none →
      (s.tasks = [] → key_j s = s ∧ key_k s = s) ∧
      (s.tasks ≠ [] →
        (key_j s).tasks.findIdx? (fun t => t.selected) = some 0 ∧
        (key_k s).tasks.findIdx? (fun t => t.selected) = some 0)) := by
  cases hfi : s.tasks.findIdx? (fun t => t.selected) with
  | none =>
    have hkj := key_j_none s hfi
    have hkk := key_k_none s hfi
    by_cases hemp : s.tasks.isEmpty = true
    · have hnil : s.tasks = [] := by simpa using hemp
      rw [hkj, if_pos hemp, hkk, if_pos hemp]
      refine ⟨h, h, rfl, rfl, ?_, ?_⟩
      · intro i hsome
        simp at hsome
      · intro _
        exact ⟨fun _ => ⟨rfl, rfl⟩, fun hne => absurd hnil hne⟩
    · have hnil : s.tasks ≠ [] := by simpa using hemp
      rw [hkj, if_neg hemp, hkk, if_neg hemp]
      obtain ⟨hf0, hc, hlen⟩ := select_first_spec s.tasks hnil hfi
      refine ⟨hc, hc, hlen, hlen, ?_, ?_⟩
      · intro i hsome
        simp at hsome
      · intro _
        exact ⟨fun hn => absurd hn hnil, fun _ => ⟨hf0, hf0⟩⟩
  | some i =>
    have hkj := key_j_some s i hfi
    have hkk := key_k_some s i hfi
    have Jspec : selected_count (key_j s).tasks ≤ 1 ∧
        (key_j s).tasks.length = s.tasks.length ∧
        (i + 1 < s.tasks.length →
          (key_j s).tasks.findIdx? (fun t => t.selected) = some (i + 1) ∧
          (taskAt (key_j s).tasks i).selected = false) ∧
        (i + 1 = s.tasks.length → key_j s = s) := by
      by_cases hjlt : i + 1 < s.tasks.length
      · rw [hkj, if_pos hjlt]
        obtain ⟨hf, hc, hlen, hati⟩ :=
          move_sel_spec s.tasks i (i + 1) h hfi (by omega) (by omega)
        exact ⟨hc, hlen, fun _ => ⟨hf, hati⟩, fun heq => absurd heq (by omega)⟩
      · rw [hkj, if_neg hjlt]
        exact ⟨h, rfl, fun hlt => absurd hlt hjlt, fun _ => rfl⟩
    have Kspec : selected_count (key_k s).tasks ≤ 1 ∧
        (key_k s).tasks.length = s.tasks.length ∧
        (0 < i →
          (key_k s).tasks.findIdx? (fun t => t.selected) = some (i - 1) ∧
          (taskAt (key_k s).tasks i).selected = false) ∧
        (i = 0 → key_k s = s) := by
      by_cases hkpos : 0 < i
      · rw [hkk, if_pos hkpos]
        obtain ⟨hf, hc, hlen, hati⟩ :=
          move_sel_spec s.tasks i (i - 1) h hfi
            (by have := (findIdx?_some_spec s.tasks i hfi).1; omega) (by omega)
        exact ⟨hc, hlen, fun _ => ⟨hf, hati⟩, fun heq => absurd heq (by omega)⟩
      · rw [hkk, if_neg hkpos]
        exact ⟨h, rfl, fun hp => absurd hp hkpos, fun _ => rfl⟩
    refine ⟨Jspec.1, Kspec.1, Jspec.2.1, Kspec.2.1, ?_, ?_⟩
    · intro i' hsome
      cases hsome
      exact ⟨Jspec.2.2.1, Jspec.2.2.2, Kspec.2.2.1, Kspec.2.2.2⟩
    · intro hnone
      simp at hnone

/-- C8 witness: with the sole selection at index 0 of a two-task list, the
J key moves the selection to index 1. -/
theorem navigation_single_selection_witness :
    (key_j ⟨[⟨"A", 5, ⟨0, 0, 0, 0⟩, true, false, false⟩,
        ⟨"B", 4, ⟨0, 0, 0, 0⟩, false, false, false⟩], "", 1, ⟨0, 0, 0, 0⟩, [],
        none, none⟩).tasks.findIdx? (fun t => t.selected) = some (0 + 1) :=
  (((navigation_single_selection _ (by decide)).2.2.2.2.1 0 (by decide)).1
    (by decide)).1

end TaskWidget
